import Mathlib

/-!
# Verification of the MongoDB-Cloner-A-to-B copy engine

Shallow embedding of the resilient copy engine of `MongoDB-Cloner-A-to-B`:

* the batch writer with bounded retry and per-document fallback
  (`insertBatch` / `insertIndividually` in `clone/runner.ts`),
* the `_id`-paginated collection reader (`cloneCollection`),
* the database-level orchestration and its destination effects
  (`cloneDatabases`, `runCli`, `promptConflictResolution`),
* the externalization migrator and its validation pass
  (`migrateDocument`, `migrateCollection`, `validateCollection`
  in `xronox/runner.ts`).

Documents are identified by their `_id` key, modelled as a natural number;
document bodies irrelevant to the verified properties are kept opaque.
Network interaction is modelled by an environment assigning to each write
attempt its outcome, and each operation returns the trace of externally
visible events it performs.
-/

namespace MongoCloner

/-! ## Batch writer with backoff (`clone/runner.ts`, `insertBatch`) -/

/-- Page size of the paginated reader in `clone/runner.ts` (`PAGE_SIZE = 10`). -/
def PAGE_SIZE : Nat := 10

/-- Retry ceiling of the batch writer (`MAX_RETRIES = 7`). -/
def MAX_RETRIES : Nat := 7

/-- An error raised by a driver write call: either a `MongoNetworkError`
instance, or a generic `Error` carrying a message string. -/
structure MErr where
  isMongoNetworkError : Bool
  message : String
deriving DecidableEq

/-- The message signatures the engine classifies as transient network faults:
the regular expression `/(EPIPE|ETIMEDOUT|ECONNRESET|Connection closed|Socket Closed)/i`. -/
def networkSignatures : List String :=
  ["epipe", "etimedout", "econnreset", "connection closed", "socket closed"]

/-- Whether `p` occurs as a contiguous segment of `s`. -/
def segmentOf (p : List Char) : List Char → Bool
  | [] => p.isEmpty
  | c :: cs => p.isPrefixOf (c :: cs) || segmentOf p cs

/-- ASCII lowercasing of one character (the signatures are ASCII, so this is
what the case-insensitive regex flag amounts to). -/
def lowerChar (c : Char) : Char :=
  if 65 ≤ c.toNat ∧ c.toNat ≤ 90 then Char.ofNat (c.toNat + 32) else c

/-- Case-insensitive substring test of the network-fault signature family
against an error message. -/
def matchesNetworkSignature (msg : String) : Bool :=
  networkSignatures.any (fun p => segmentOf p.toList (msg.toList.map lowerChar))

/-- Error classification used by both `insertBatch` and `insertIndividually`:
a `MongoNetworkError`, or a message matching the timeout / broken-pipe /
reset / connection-closed family. -/
def isNetworkError (e : MErr) : Bool :=
  e.isMongoNetworkError || matchesNetworkSignature e.message

/-- Backoff delay used before retrying after a failed `attempt`:
`Math.min(20_000, 500 * attempt * attempt)` milliseconds. -/
def backoffDelay (attempt : Nat) : Nat :=
  min 20000 (500 * attempt * attempt)

/-- Externally visible events of a batch write: bulk insert attempts,
batch-level backoff waits, per-document insert attempts, and per-document
backoff waits. -/
inductive Ev where
  | bulkTry (attempt : Nat)
  | batchWait (delayMs : Nat)
  | singleTry (doc : Nat) (attempt : Nat)
  | docWait (delayMs : Nat)
deriving DecidableEq

/-- Write environment: `bulk a` is the outcome of the `a`-th `insertMany`
attempt of the batch (`none` = success), and `single d a` the outcome of the
`a`-th `insertOne` attempt for document `d` in the per-document fallback. -/
structure Env where
  bulk : Nat → Option MErr
  single : Nat → Nat → Option MErr

/-- Per-document retry loop of `insertIndividually`: while the attempt
counter is at most `MAX_RETRIES`, try `insertOne`; on success stop; on a
non-network error or once the counter reaches `MAX_RETRIES` rethrow;
otherwise wait `backoffDelay attempt` and retry.  `fuel` bounds the
recursion; `MAX_RETRIES` units always suffice. -/
def insertOneLoop (env : Env) (doc : Nat) : Nat → Nat → List Ev × Option MErr
  | _, 0 => ([], none)
  | attempt, fuel + 1 =>
    if attempt ≤ MAX_RETRIES then
      match env.single doc attempt with
      | none => ([Ev.singleTry doc attempt], none)
      | some e =>
        if !isNetworkError e || decide (attempt ≥ MAX_RETRIES) then
          ([Ev.singleTry doc attempt], some e)
        else
          let rest := insertOneLoop env doc (attempt + 1) fuel
          (Ev.singleTry doc attempt :: Ev.docWait (backoffDelay attempt) :: rest.1, rest.2)
    else ([], none)

/-- `insertIndividually`: insert the batch documents one at a time, each with
its own bounded retry loop; the first error surviving a document's retries
propagates and aborts the remaining documents. -/
def insertIndividually (env : Env) : List Nat → List Ev × Option MErr
  | [] => ([], none)
  | d :: ds =>
    let r := insertOneLoop env d 1 MAX_RETRIES
    match r.2 with
    | some e => (r.1, some e)
    | none =>
      let r2 := insertIndividually env ds
      (r.1 ++ r2.1, r2.2)

/-- `insertBatch`: try an unordered bulk insert; on a network-classified
error below the retry ceiling wait `backoffDelay attempt` and retry the whole
batch with `attempt + 1`; on a non-network error, or once
`attempt ≥ MAX_RETRIES`, fall back to `insertIndividually`.  `fuel` bounds
the recursion; `MAX_RETRIES` units always suffice from attempt 1. -/
def insertBatch (env : Env) (docs : List Nat) : Nat → Nat → List Ev × Option MErr
  | _, 0 => ([], none)
  | attempt, fuel + 1 =>
    match env.bulk attempt with
    | none => ([Ev.bulkTry attempt], none)
    | some e =>
      if !isNetworkError e || decide (attempt ≥ MAX_RETRIES) then
        let fb := insertIndividually env docs
        (Ev.bulkTry attempt :: fb.1, fb.2)
      else
        let rest := insertBatch env docs (attempt + 1) fuel
        (Ev.bulkTry attempt :: Ev.batchWait (backoffDelay attempt) :: rest.1, rest.2)

/-- A full batch write as invoked by `cloneCollection`: `insertBatch` from
attempt 1, with enough fuel for the whole retry ladder. -/
def insertBatchRun (env : Env) (docs : List Nat) : List Ev × Option MErr :=
  insertBatch env docs 1 MAX_RETRIES

/-- Number of bulk insert attempts recorded in a trace. -/
def bulkCount (evs : List Ev) : Nat :=
  (evs.filter fun ev => match ev with | .bulkTry _ => true | _ => false).length

/-- The batch-level backoff delays recorded in a trace, in order. -/
def batchWaits (evs : List Ev) : List Nat :=
  evs.filterMap fun ev => match ev with | .batchWait d => some d | _ => none

/-- Trace of bulk attempts `a, a + 1, ..., a + c`, with the backoff wait
after each failed attempt except the last. -/
def bulkTries (a : Nat) : Nat → List Ev
  | 0 => [Ev.bulkTry a]
  | c + 1 => Ev.bulkTry a :: Ev.batchWait (backoffDelay a) :: bulkTries (a + 1) c

/-- Trace of per-document attempts `a, ..., a + c` for document `doc`, with
the per-document backoff wait after each failed attempt except the last. -/
def singleTries (doc a : Nat) : Nat → List Ev
  | 0 => [Ev.singleTry doc a]
  | c + 1 => Ev.singleTry doc a :: Ev.docWait (backoffDelay a) :: singleTries doc (a + 1) c

/-- The batch retry ladder stops at attempt `j`: the bulk insert succeeded
there, or its error was non-network, or the retry ceiling was reached. -/
def stopsAt (env : Env) (j : Nat) : Prop :=
  env.bulk j = none ∨
    ∃ e, env.bulk j = some e ∧ (isNetworkError e = false ∨ j = MAX_RETRIES)

/-- All bulk attempts in `[a, j)` failed with network-classified errors. -/
def allNetworkBefore (env : Env) (a j : Nat) : Prop :=
  ∀ k, a ≤ k → k < j → ∃ e, env.bulk k = some e ∧ isNetworkError e = true

/-! ## Paginated reader (`clone/runner.ts`, `cloneCollection`)

A collection is a list of documents, each represented by its totally ordered
`_id` key (a natural number).  Each page is the query
`find(\x7b _id: \x7b $gt: lastId \x7d \x7d).sort(\x7b _id: 1 \x7d).limit(PAGE_SIZE)`,
i.e. filter, sort ascending by `_id`, truncate. -/

/-- The page filter: with no last-seen key every document matches, otherwise
only documents with `_id` strictly greater than the last-seen key. -/
def afterKey (lastId : Option Nat) (k : Nat) : Bool :=
  match lastId with
  | none => true
  | some l => decide (l < k)

/-- Ascending sort by `_id` (the driver's `sort(\x7b _id: 1 \x7d)`). -/
def sortById (l : List Nat) : List Nat :=
  l.insertionSort (· ≤ ·)

/-- One page query of `cloneCollection`: filter by the last-seen key, sort
ascending by `_id`, and truncate to the page size. -/
def findPage (coll : List Nat) (lastId : Option Nat) (ps : Nat) : List Nat :=
  (sortById (coll.filter (afterKey lastId))).take ps

/-- The cursor update `lastId = page[page.length - 1]._id ?? lastId`:
the `_id` of the last document of the page, keeping the previous key for an
empty page. -/
def nextLast (page : List Nat) (lastId : Option Nat) : Option Nat :=
  match page.getLast? with
  | none => lastId
  | some x => some x

/-- The pagination loop of `cloneCollection`: repeatedly fetch a page after
the last-seen key; stop on an empty page, otherwise record the page and
continue from its last `_id`.  `fuel` bounds the loop; `coll.length + 1`
units always suffice. -/
def clonePages (coll : List Nat) (ps : Nat) : Option Nat → Nat → List (List Nat)
  | _, 0 => []
  | lastId, fuel + 1 =>
    if findPage coll lastId ps = [] then []
    else
      findPage coll lastId ps ::
        clonePages coll ps (nextLast (findPage coll lastId ps) lastId) fuel

/-- Every page contains only keys passing the filter of the last-seen key of
the previous page, where the last-seen key starts as `none` and is updated to
each page's final `_id`. -/
def chainOk : Option Nat → List (List Nat) → Bool
  | _, [] => true
  | last, p :: rest => p.all (afterKey last) && chainOk (nextLast p last) rest

/-! ## Copy orchestrator (`clone/runner.ts`, `cloneDatabases`)

The orchestrator's destination mutations are modelled as an effect trace.
A source collection is a name, a list of document `_id` keys and a list of
index names; the source is a map from database name to its collections, the
destination a map from database name to the names of its pre-run
collections. -/

/-- A source collection as enumerated by `listCollections`: its name, its
documents (by `_id`) and its index names. -/
structure SrcCollection where
  name : String
  docs : List Nat
  indexes : List String
deriving DecidableEq

/-- Contents of the source deployment. -/
structure SourceModel where
  colls : String → List SrcCollection

/-- Pre-run collection names of the destination deployment. -/
structure DestModel where
  colls : String → List String

/-- A destination mutation performed by the clone run. -/
inductive DbEffect where
  | dropDatabase (db : String)
  | dropCollection (db coll : String)
  | createCollection (db coll : String)
  | insertDoc (db coll : String) (id : Nat)
  | createIndex (db coll idx : String)
deriving DecidableEq

/-- Arguments of `cloneDatabases`: the databases to clone, the databases
with an overwrite decision, and the skip-indexes flag. -/
structure CloneArgs where
  databases : List String
  overwrite : List String
  skipIndexes : Bool
deriving DecidableEq

/-- Whether an effect mutates destination collection `coll` of database
`db`; dropping the whole database counts for every collection in it. -/
def touchesCollection (db coll : String) : DbEffect → Bool
  | .dropDatabase d => d == db
  | .dropCollection d c => d == db && c == coll
  | .createCollection d c => d == db && c == coll
  | .insertDoc d c _ => d == db && c == coll
  | .createIndex d c _ => d == db && c == coll

/-- The destination-name set after the leftover-drop step of the collection
loop: a destination copy of the collection, when present, is dropped and
removed from the set. -/
def afterDropSet (destNames : List String) (c : SrcCollection) : List String :=
  if destNames.contains c.name then destNames.filter (fun n => !(n == c.name))
  else destNames

/-- The destination-name set after the create step: the collection name is
added when (as always holds after the drop step) it is absent. -/
def afterCreateSet (destNames : List String) (c : SrcCollection) : List String :=
  if (afterDropSet destNames c).contains c.name then afterDropSet destNames c
  else c.name :: afterDropSet destNames c

/-- Effects of the leftover-drop step. -/
def dropEffects (db : String) (destNames : List String) (c : SrcCollection) :
    List DbEffect :=
  if destNames.contains c.name then [DbEffect.dropCollection db c.name] else []

/-- Effects of the create step. -/
def createEffects (db : String) (destNames : List String) (c : SrcCollection) :
    List DbEffect :=
  if (afterDropSet destNames c).contains c.name then []
  else [DbEffect.createCollection db c.name]

/-- Effects of the data copy: one insert per document observed by the
pagination loop of `cloneCollection`. -/
def copyEffects (db : String) (c : SrcCollection) : List DbEffect :=
  (clonePages c.docs PAGE_SIZE none (c.docs.length + 1)).flatten.map
    (DbEffect.insertDoc db c.name)

/-- Effects of `syncIndexes`: one create per source index except the
implicit `_id_` index, unless index replay is suppressed. -/
def idxEffects (db : String) (skipIdx : Bool) (c : SrcCollection) :
    List DbEffect :=
  if skipIdx then []
  else (c.indexes.filter (fun i => !(i == "_id_"))).map
    (DbEffect.createIndex db c.name)

/-- Clone one source collection (the body of the collection loop of
`cloneDatabases`): skip silently when it already exists at the destination
and the database is not overwritten; otherwise drop a leftover destination
copy, create the collection, copy every page produced by the pagination
loop, and (unless suppressed) recreate every index except the implicit
`_id_` index.  Returns the updated destination-name set and the effects. -/
def cloneOneCollection (db : String) (skipIdx shouldOverwrite : Bool)
    (destNames : List String) (c : SrcCollection) : List String × List DbEffect :=
  if !shouldOverwrite && destNames.contains c.name then
    (destNames, [])
  else
    (afterCreateSet destNames c,
     dropEffects db destNames c ++ createEffects db destNames c ++
       copyEffects db c ++ idxEffects db skipIdx c)

/-- The collection loop of `cloneDatabases`, threading the mutable set of
destination collection names; collections with an empty name are skipped. -/
def processCollections (db : String) (skipIdx shouldOverwrite : Bool) :
    List String → List SrcCollection → List DbEffect
  | _, [] => []
  | destNames, c :: rest =>
    if c.name == "" then
      processCollections db skipIdx shouldOverwrite destNames rest
    else
      let r := cloneOneCollection db skipIdx shouldOverwrite destNames c
      r.2 ++ processCollections db skipIdx shouldOverwrite r.1 rest

/-- Clone one database: drop the destination copy when overwrite was
decided, then run the collection loop over the source collections against
the destination collection listing (empty after an overwrite drop).
A database with no source collections is skipped after the drop. -/
def cloneOneDatabase (src : SourceModel) (dest : DestModel) (overwrite : List String)
    (skipIdx : Bool) (db : String) : List DbEffect :=
  let shouldOverwrite := overwrite.contains db
  let dropEffs := if shouldOverwrite then [DbEffect.dropDatabase db] else []
  if (src.colls db).isEmpty then dropEffs
  else
    let destNames0 := if shouldOverwrite then [] else dest.colls db
    dropEffs ++ processCollections db skipIdx shouldOverwrite destNames0 (src.colls db)

/-- `cloneDatabases`: process every selected database in order. -/
def cloneDatabases (src : SourceModel) (dest : DestModel) (args : CloneArgs) :
    List DbEffect :=
  (args.databases.map (cloneOneDatabase src dest args.overwrite args.skipIndexes)).flatten

/-! ## Conflict resolution and CLI sequencing
(`cli/prompts.ts`, `promptConflictResolution`; `index.ts`, `runCli`) -/

/-- The user's answer for one conflicting database. -/
inductive ConflictAction where
  | overwrite
  | skip
  | cancel
deriving DecidableEq

/-- Result of the conflict-resolution prompt loop. -/
structure Resolution where
  overwrite : List String
  skip : List String
  cancelled : Bool
deriving DecidableEq

/-- The prompt loop of `promptConflictResolution` with its two accumulated
decision lists: a `cancel` answer returns immediately with the decisions
collected so far; `overwrite` and `skip` append the database to the matching
list and continue. -/
def resolveConflicts (answer : String → ConflictAction) :
    List String → List String → List String → Resolution
  | ov, sk, [] => ⟨ov, sk, false⟩
  | ov, sk, d :: rest =>
    match answer d with
    | .cancel => ⟨ov, sk, true⟩
    | .overwrite => resolveConflicts answer (ov ++ [d]) sk rest
    | .skip => resolveConflicts answer ov (sk ++ [d]) rest

/-- `promptConflictResolution`: resolve each conflicting database in order,
starting from empty decision lists. -/
def promptConflictResolution (answer : String → ConflictAction)
    (dbs : List String) : Resolution :=
  resolveConflicts answer [] [] dbs

/-- The user interaction consumed by `runCli`: the selected source
databases, the databases present at the destination, the per-database
conflict answer, and the final confirmation. -/
structure CliInput where
  selectedDatabases : List String
  destinationDatabases : List String
  answer : String → ConflictAction
  confirm : Bool

/-- The selected databases that already exist at the destination, in
selection order. -/
def conflictingOf (inp : CliInput) : List String :=
  inp.selectedDatabases.filter (fun n => inp.destinationDatabases.contains n)

/-- The decision pipeline of `runCli`: returns the arguments passed to
`cloneDatabases`, or `none` when the run terminates before `cloneDatabases`
is invoked (nothing selected, resolution cancelled, nothing left after
skips, or confirmation declined). -/
def runCliClone (skipIdx : Bool) (inp : CliInput) : Option CloneArgs :=
  if inp.selectedDatabases.isEmpty then none
  else
    let res := if (conflictingOf inp).isEmpty then (⟨[], [], false⟩ : Resolution)
      else promptConflictResolution inp.answer (conflictingOf inp)
    if res.cancelled then none
    else
      let databasesToClone :=
        inp.selectedDatabases.filter (fun n => !(res.skip.contains n))
      if databasesToClone.isEmpty then none
      else if !inp.confirm then none
      else some ⟨databasesToClone,
        res.overwrite.filter (fun n => databasesToClone.contains n), skipIdx⟩

/-- Destination mutations of a whole `runCli` run: empty unless the pipeline
reaches `cloneDatabases`, since every destination mutation of the run is
performed inside `cloneDatabases`. -/
def runCliEffects (src : SourceModel) (dest : DestModel) (skipIdx : Bool)
    (inp : CliInput) : List DbEffect :=
  match runCliClone skipIdx inp with
  | none => []
  | some args => cloneDatabases src dest args

/-! ## Externalization migrator (`xronox/runner.ts`)

A source record is its optional `_id` (a natural number) together with an
opaque serialized body and its business identifier (the `id` field, empty
string when absent).  The destination state holds the head collection, the
base collection, the storage bucket contents and the per-collection
change-version counter. -/

/-- A source record: its `_id` field when present, the serialized payload
left after stripping `_id` and `_system`, and its `id` field (`""` when the
record has no usable business identifier). -/
structure SrcRecord where
  id : Option Nat
  body : String
  businessId : String
deriving DecidableEq

/-- The `_system.storage` pointer of a head document. -/
structure StoragePointer where
  bucket : String
  key : String
  size : Nat
  checksum : String
deriving DecidableEq

/-- A document stored in the head (and base) collection: its storage
pointer when present, its change-version and its business identifier. -/
structure StoredHead where
  pointer : Option StoragePointer
  cv : Nat
  payloadId : String
deriving DecidableEq

/-- JavaScript truthiness of `head._system?.storage?.key`: a pointer must be
present and its key must be a non-empty string. -/
def headTruthy : Option StoredHead → Bool
  | none => false
  | some h =>
    match h.pointer with
    | none => false
    | some p => !(p.key == "")

/-- Destination-side state of the migrator: head collection, base
collection, storage bucket contents (key to serialized body), and the
per-collection change-version counter maintained by `repos.incCv`. -/
structure MigState where
  heads : Nat → Option StoredHead
  base : Nat → Option StoredHead
  storage : String → Option String
  cv : Nat

/-- Externally visible operations of the migrator. -/
inductive MigEffect where
  | upload (bucket key content : String)
  | incCv
  | headWrite (id : Nat)
  | baseWrite (id : Nat)
deriving DecidableEq

/-- Modelled from the spec: the deterministic key derivation
`jsonKey(collection, idHex, 0)` of the external `@xronoces/xronox-core`
package, a function of the collection name, the record identifier and the
revision only. -/
def jsonKey (coll idHex : String) (rev : Nat) : String :=
  coll ++ "/" ++ idHex ++ "/" ++ toString rev

/-- Modelled from the spec: the sha-256 digest of the payload bytes computed
via the external `node:crypto` package, treated as an opaque deterministic
function of the serialized content. -/
def checksumOf (s : String) : String := s

/-- Modelled from the spec: the random unique token (`randomUUID` of the
external `node:crypto` package) backfilled as business identifier for a
record that lacks one, rendered deterministic in the model. -/
def freshBusinessId (id : Nat) : String :=
  "uuid-" ++ toString id

/-- `migrateDocument`: skip records without an `_id`; with resume enabled,
skip records whose destination head already carries a non-empty storage key;
otherwise upload the payload under the derived key, increment the
change-version counter, and upsert the new head document into both the head
collection and the base collection.  Returns the new state, the effect
trace, and the non-null migration result when the record was processed. -/
def migrateDocument (resume : Bool) (coll bucket : String) (st : MigState)
    (r : SrcRecord) : MigState × List MigEffect × Option Nat :=
  match r.id with
  | none => (st, [], none)
  | some id =>
    if resume && headTruthy (st.heads id) then (st, [], none)
    else
      let payloadId := if r.businessId == "" then freshBusinessId id else r.businessId
      let content := r.body
      let key := jsonKey coll (toString id) 0
      let cv1 := st.cv + 1
      let head : StoredHead :=
        { pointer := some ⟨bucket, key, content.utf8ByteSize, checksumOf content⟩,
          cv := cv1, payloadId := payloadId }
      let st1 : MigState :=
        { heads := fun i => if i = id then some head else st.heads i,
          base := fun i => if i = id then some head else st.base i,
          storage := fun k => if k = key then some content else st.storage k,
          cv := cv1 }
      (st1, [MigEffect.upload bucket key content, MigEffect.incCv,
             MigEffect.headWrite id, MigEffect.baseWrite id], some id)

/-- The record loop of `migrateCollection`: process every source record in
cursor order, threading the destination state, concatenating the effect
traces and counting the records with a non-null migration result (the
`migrated` counter driving the progress output). -/
def migrateCollection (resume : Bool) (coll bucket : String) :
    MigState → List SrcRecord → MigState × List MigEffect × Nat
  | st, [] => (st, [], 0)
  | st, r :: rest =>
    let s := migrateDocument resume coll bucket st r
    let t := migrateCollection resume coll bucket s.1 rest
    (t.1, s.2.1 ++ t.2.1, (if s.2.2.isSome then 1 else 0) + t.2.2)

/-! ## Validation pass (`xronox/runner.ts`, `validateCollection`) -/

/-- A document of the head collection as seen by the validation cursor: its
optional `_id` and the optional `_system.storage.key`. -/
structure RawHead where
  id : Option Nat
  key : Option String
deriving DecidableEq

/-- JavaScript truthiness of the raw storage key. -/
def keyTruthy : Option String → Bool
  | none => false
  | some s => !(s == "")

/-- The failure label `doc._id?.toString?.() ?? "unknown"`. -/
def idLabel : Option Nat → String
  | none => "unknown"
  | some i => toString i

/-- `validateCollection`: walk the head collection; skip documents without a
truthy storage key; read each referenced storage object back, counting a
successful read as validated and recording the document's label as a failure
when the read throws (the object is missing or unreadable).  The pass only
reads — it performs no destination or storage write — and every read error
is caught, so it never aborts the run. -/
def validateCollection (storage : String → Option String) :
    List RawHead → Nat × List String
  | [] => (0, [])
  | h :: rest =>
    if keyTruthy h.key then
      match storage (h.key.getD "") with
      | some _ =>
        let r := validateCollection storage rest
        (r.1 + 1, r.2)
      | none =>
        let r := validateCollection storage rest
        (r.1, idLabel h.id :: r.2)
    else validateCollection storage rest

/-! ## Auxiliary definitions and concrete fixtures -/

/-- The database a destination effect acts on. -/
def dbOf : DbEffect → String
  | .dropDatabase d => d
  | .dropCollection d _ => d
  | .createCollection d _ => d
  | .insertDoc d _ _ => d
  | .createIndex d _ _ => d

/-- A network-classified error: a `MongoNetworkError` instance. -/
def netErr : MErr := ⟨true, "connection reset"⟩

/-- A non-network error: a plain validation failure. -/
def valErr : MErr := ⟨false, "Document failed validation"⟩

/-- Environment whose first bulk attempt hits a network error and whose
second succeeds; all per-document inserts succeed. -/
def envNetOnce : Env :=
  ⟨fun a => if a = 1 then some netErr else none, fun _ _ => none⟩

/-- Environment whose first bulk attempt fails with a non-network error, and
whose document 0 hits a network error on its first single-insert attempt and
a non-network error on its second. -/
def envFallback : Env :=
  ⟨fun _ => some valErr,
   fun _ a => if a = 1 then some netErr else some valErr⟩

/-- A migrator destination state with no heads, no storage objects and a
zero change-version counter. -/
def migStateEmpty : MigState :=
  ⟨fun _ => none, fun _ => none, fun _ => none, 0⟩

/-- A migrator destination state in which record 1 already has a head
document with a populated storage pointer. -/
def migStateMigrated : MigState :=
  ⟨fun i => if i = 1 then some ⟨some ⟨"bkt", "orders/1/0", 4, "body"⟩, 1, "id1"⟩ else none,
   fun i => if i = 1 then some ⟨some ⟨"bkt", "orders/1/0", 4, "body"⟩, 1, "id1"⟩ else none,
   fun k => if k = "orders/1/0" then some "body" else none, 1⟩

/-- CLI interaction in which database `A` conflicts and the user cancels. -/
def cliInputCancel : CliInput :=
  ⟨["A", "B"], ["A"],
   fun n => if n = "A" then ConflictAction.cancel else ConflictAction.overwrite,
   true⟩

/-- A one-database source fixture. -/
def srcFixture : SourceModel :=
  ⟨fun d => if d = "app" then [⟨"users", [2, 1], ["_id_", "email_1"]⟩] else []⟩

/-- A destination fixture on which collection `users` of database `app`
already exists. -/
def destFixture : DestModel :=
  ⟨fun d => if d = "app" then ["users"] else []⟩

/-- Clone arguments for the fixture run, with no overwrite decision. -/
def argsFixture : CloneArgs := ⟨["app"], [], false⟩

/-- Storage fixture holding the single object `orders/1/0`. -/
def storageFixture : String → Option String :=
  fun k => if k = "orders/1/0" then some "body" else none

/-! # Theorems -/

/-! ## Externalization migrator lemmas -/

/-- A record without an `_id` is returned unprocessed: unchanged state, no
effects, null result. -/
theorem migrateDocument_of_id_none (resume : Bool) (coll bucket : String)
    (st : MigState) (r : SrcRecord) (h : r.id = none) :
    migrateDocument resume coll bucket st r = (st, [], none) := by
  unfold migrateDocument
  rw [h]

/-- With resume enabled, a record whose destination head has a truthy
storage key is returned unprocessed. -/
theorem migrateDocument_of_headTruthy (coll bucket : String) (st : MigState)
    (r : SrcRecord) (i : Nat) (hid : r.id = some i)
    (ht : headTruthy (st.heads i) = true) :
    migrateDocument true coll bucket st r = (st, [], none) := by
  unfold migrateDocument
  rw [hid]
  simp [ht]

/-- A record processed as skipped contributes nothing to the collection
loop: the remaining records run from the same state and count. -/
theorem migrateCollection_cons_skip (resume : Bool) (coll bucket : String)
    (st : MigState) (r : SrcRecord) (records : List SrcRecord)
    (h : migrateDocument resume coll bucket st r = (st, [], none)) :
    migrateCollection resume coll bucket st (r :: records) =
      migrateCollection resume coll bucket st records := by
  simp [migrateCollection, h]

/-- C9: a source record with no `_id` field is silently skipped by
`migrateDocument` — null result, no storage upload, no change-version
increment, no head or base write, the destination state unchanged — in any
mode, and it is not counted in the migrated total of the collection loop. -/
theorem migrateDocument_missing_id_skipped (resume : Bool) (coll bucket : String)
    (st : MigState) (r : SrcRecord) (records : List SrcRecord)
    (h : r.id = none) :
    migrateDocument resume coll bucket st r = (st, [], none) ∧
    migrateCollection resume coll bucket st (r :: records) =
      migrateCollection resume coll bucket st records :=
  ⟨migrateDocument_of_id_none resume coll bucket st r h,
   migrateCollection_cons_skip resume coll bucket st r records
     (migrateDocument_of_id_none resume coll bucket st r h)⟩

/-- Witness for C9 at a concrete record without `_id`. -/
theorem migrateDocument_missing_id_skipped_witness :
    (⟨none, "x", ""⟩ : SrcRecord).id = none ∧
    migrateDocument true "orders" "bkt" migStateEmpty ⟨none, "x", ""⟩ =
      (migStateEmpty, [], none) ∧
    migrateCollection true "orders" "bkt" migStateEmpty [⟨none, "x", ""⟩] =
      migrateCollection true "orders" "bkt" migStateEmpty [] :=
  ⟨rfl,
   (migrateDocument_missing_id_skipped true "orders" "bkt" migStateEmpty
      ⟨none, "x", ""⟩ [] rfl).1,
   (migrateDocument_missing_id_skipped true "orders" "bkt" migStateEmpty
      ⟨none, "x", ""⟩ [] rfl).2⟩

/-- C5: with resume enabled, a record whose destination head already carries
a non-empty `_system.storage.key` is skipped with no upload and no
destination write; hence a resume run over a fully migrated collection
performs zero uploads, migrates zero records and leaves every head document
and storage object unchanged. -/
theorem migrate_resume_idempotent (coll bucket : String) (st : MigState)
    (records : List SrcRecord)
    (hall : ∀ r ∈ records, ∀ i, r.id = some i → headTruthy (st.heads i) = true) :
    (∀ (r : SrcRecord) (i : Nat), r.id = some i →
       headTruthy (st.heads i) = true →
       migrateDocument true coll bucket st r = (st, [], none)) ∧
    migrateCollection true coll bucket st records = (st, [], 0) := by
  refine ⟨fun r i hid ht => migrateDocument_of_headTruthy coll bucket st r i hid ht, ?_⟩
  induction records with
  | nil => rfl
  | cons r rest ih =>
    have hskip : migrateDocument true coll bucket st r = (st, [], none) := by
      cases hid : r.id with
      | none => exact migrateDocument_of_id_none true coll bucket st r hid
      | some i =>
        exact migrateDocument_of_headTruthy coll bucket st r i hid
          (hall r (List.mem_cons_self r rest) i hid)
    rw [migrateCollection_cons_skip true coll bucket st r rest hskip]
    exact ih fun x hx => hall x (List.mem_cons_of_mem r hx)

/-- Witness for C5 on a one-record collection whose head is already
migrated. -/
theorem migrate_resume_idempotent_witness :
    (∀ r ∈ [(⟨some 1, "body", "id1"⟩ : SrcRecord)], ∀ i, r.id = some i →
       headTruthy (migStateMigrated.heads i) = true) ∧
    migrateCollection true "orders" "bkt" migStateMigrated
      [⟨some 1, "body", "id1"⟩] = (migStateMigrated, [], 0) :=
  ⟨by
    intro r hr i hi
    rw [List.mem_singleton] at hr
    subst hr
    cases hi
    decide,
   (migrate_resume_idempotent "orders" "bkt" migStateMigrated
      [⟨some 1, "body", "id1"⟩]
      (by
        intro r hr i hi
        rw [List.mem_singleton] at hr
        subst hr
        cases hi
        decide)).2⟩

/-! ## Validation pass lemmas -/

/-- A run of the validation pass over heads whose storage objects are all
readable counts every head and records no failure. -/
theorem validateCollection_all_ok (storage : String → Option String)
    (l : List RawHead) (hkeys : ∀ h ∈ l, keyTruthy h.key = true)
    (hok : ∀ h ∈ l, ∃ c, storage (h.key.getD "") = some c) :
    validateCollection storage l = (l.length, []) := by
  induction l with
  | nil => rfl
  | cons h rest ih =>
    have hk : keyTruthy h.key = true := hkeys h (List.mem_cons_self h rest)
    obtain ⟨c, hc⟩ := hok h (List.mem_cons_self h rest)
    have hrest := ih (fun x hx => hkeys x (List.mem_cons_of_mem h hx))
      (fun x hx => hok x (List.mem_cons_of_mem h hx))
    simp [validateCollection, hk, hc, hrest]

/-- C8: if every document of the head collection carries a non-empty storage
key and exactly one referenced storage object is missing or unreadable, the
validation pass reports exactly that document as the single failure and a
passed count of the total number of heads minus one.  (The pass is a pure
read: the embedding performs no destination or storage write, and every
storage read failure is absorbed into the failure count rather than
propagated, so the run never aborts.) -/
theorem validation_soundness (storage : String → Option String)
    (pre post : List RawHead) (h0 : RawHead) (k0 : String)
    (hk0 : h0.key = some k0) (hk0ne : ¬ k0 = "")
    (hfail : storage k0 = none)
    (hkeys : ∀ h ∈ pre ++ h0 :: post, keyTruthy h.key = true)
    (hok : ∀ h ∈ pre ++ post, ∃ c, storage (h.key.getD "") = some c) :
    validateCollection storage (pre ++ h0 :: post) =
      ((pre ++ h0 :: post).length - 1, [idLabel h0.id]) := by
  induction pre with
  | nil =>
    have hkpost : ∀ h ∈ post, keyTruthy h.key = true := fun x hx =>
      hkeys x (by simp [hx])
    have hpost := validateCollection_all_ok storage post hkpost
      (fun x hx => hok x (by simp [hx]))
    have hk : keyTruthy h0.key = true := hkeys h0 (by simp)
    simp [validateCollection, hk, hk0, hfail, hpost, keyTruthy, hk0ne]
  | cons p pre ih =>
    have hk : keyTruthy p.key = true := hkeys p (by simp)
    obtain ⟨c, hc⟩ := hok p (by simp)
    have htail := ih (fun x hx => hkeys x (by simp at hx ⊢; tauto))
      (fun x hx => hok x (by simp at hx ⊢; tauto))
    have hlen : (pre ++ h0 :: post).length - 1 + 1 =
        (p :: pre ++ h0 :: post).length - 1 := by
      simp [List.length_append]
      omega
    simp only [List.cons_append, validateCollection, hk, hc, if_true,
      List.append_eq, htail]
    rw [hlen]
    simp [List.cons_append]

/-- Witness for C8: two heads, the second one's object deleted
out-of-band. -/
theorem validation_soundness_witness :
    (⟨some 2, some "orders/2/0"⟩ : RawHead).key = some "orders/2/0" ∧
    ¬ "orders/2/0" = "" ∧
    storageFixture "orders/2/0" = none ∧
    (∀ h ∈ [(⟨some 1, some "orders/1/0"⟩ : RawHead)] ++
        (⟨some 2, some "orders/2/0"⟩ : RawHead) :: [],
       keyTruthy h.key = true) ∧
    (∀ h ∈ [(⟨some 1, some "orders/1/0"⟩ : RawHead)] ++ ([] : List RawHead),
       ∃ c, storageFixture (h.key.getD "") = some c) ∧
    validateCollection storageFixture
        ([⟨some 1, some "orders/1/0"⟩] ++ ⟨some 2, some "orders/2/0"⟩ :: []) =
      (([(⟨some 1, some "orders/1/0"⟩ : RawHead)] ++
          (⟨some 2, some "orders/2/0"⟩ : RawHead) :: []).length - 1,
       [idLabel (some 2)]) :=
  ⟨rfl, by decide, by decide,
   by decide,
   by
     intro h hh
     rw [List.append_nil, List.mem_singleton] at hh
     subst hh
     exact ⟨"body", by decide⟩,
   validation_soundness storageFixture [⟨some 1, some "orders/1/0"⟩] []
     ⟨some 2, some "orders/2/0"⟩ "orders/2/0" rfl (by decide) (by decide)
     (by decide)
     (by
       intro h hh
       rw [List.append_nil, List.mem_singleton] at hh
       subst hh
       exact ⟨"body", by decide⟩)⟩

/-! ## Conflict resolution lemmas -/

/-- A `cancel` answer stops the prompt loop where it occurs: the resolution
is cancelled, and the databases after the cancelled one are never
consulted. -/
theorem resolveConflicts_cancel (answer : String → ConflictAction) (d : String)
    (hd : answer d = ConflictAction.cancel) :
    ∀ (pre : List String), (∀ x ∈ pre, answer x ≠ ConflictAction.cancel) →
    ∀ ov sk post,
      resolveConflicts answer ov sk (pre ++ d :: post) =
        resolveConflicts answer ov sk (pre ++ [d]) ∧
      (resolveConflicts answer ov sk (pre ++ d :: post)).cancelled = true := by
  intro pre
  induction pre with
  | nil =>
    intro _ ov sk post
    simp [resolveConflicts, hd]
  | cons x pre ih =>
    intro hpre ov sk post
    have hx : answer x ≠ ConflictAction.cancel := hpre x (List.mem_cons_self x pre)
    have ihx := ih (fun y hy => hpre y (List.mem_cons_of_mem x hy))
    cases hax : answer x with
    | cancel => exact absurd hax hx
    | overwrite =>
      simpa [resolveConflicts, hax] using ihx (ov ++ [x]) sk post
    | skip =>
      simpa [resolveConflicts, hax] using ihx ov (sk ++ [x]) post

/-- C4: a cancel answer for any conflicting database stops the resolution at
that database (the later conflicting databases are never consulted), the run
terminates before `cloneDatabases` is ever invoked, and the run performs no
destination mutation for any database. -/
theorem conflict_abort_atomicity (src : SourceModel) (dest : DestModel)
    (skipIdx : Bool) (inp : CliInput) (pre : List String) (d : String)
    (post : List String)
    (hsplit : conflictingOf inp = pre ++ d :: post)
    (hpre : ∀ x ∈ pre, inp.answer x ≠ ConflictAction.cancel)
    (hd : inp.answer d = ConflictAction.cancel) :
    (promptConflictResolution inp.answer (conflictingOf inp)).cancelled = true ∧
    promptConflictResolution inp.answer (conflictingOf inp) =
      promptConflictResolution inp.answer (pre ++ [d]) ∧
    runCliClone skipIdx inp = none ∧
    runCliEffects src dest skipIdx inp = [] := by
  obtain ⟨heq, hcan⟩ := resolveConflicts_cancel inp.answer d hd pre hpre [] [] post
  rw [← hsplit] at heq hcan
  have hne : ¬ inp.selectedDatabases.isEmpty = true := by
    intro habs
    rw [List.isEmpty_iff] at habs
    have hmt : conflictingOf inp = [] := by
      simp [conflictingOf, habs]
    rw [hsplit] at hmt
    exact List.append_ne_nil_of_right_ne_nil pre (List.cons_ne_nil d post) hmt
  have hcne : ¬ (conflictingOf inp).isEmpty = true := by
    intro habs
    rw [List.isEmpty_iff, hsplit] at habs
    exact List.append_ne_nil_of_right_ne_nil pre (List.cons_ne_nil d post) habs
  have hnone : runCliClone skipIdx inp = none := by
    unfold runCliClone
    rw [if_neg hne, if_neg hcne]
    simp [promptConflictResolution, hcan]
  refine ⟨hcan, heq, hnone, ?_⟩
  unfold runCliEffects
  rw [hnone]

/-- Witness for C4: database `A` conflicts and is cancelled; database `B`
is selected but conflict-free. -/
theorem conflict_abort_atomicity_witness :
    conflictingOf cliInputCancel = [] ++ "A" :: [] ∧
    (∀ x ∈ ([] : List String), cliInputCancel.answer x ≠ ConflictAction.cancel) ∧
    cliInputCancel.answer "A" = ConflictAction.cancel ∧
    runCliClone false cliInputCancel = none ∧
    runCliEffects srcFixture destFixture false cliInputCancel = [] := by
  refine ⟨by decide, by simp, by decide, ?_, ?_⟩
  · exact (conflict_abort_atomicity srcFixture destFixture false cliInputCancel
      [] "A" [] (by decide) (by simp) (by decide)).2.2.1
  · exact (conflict_abort_atomicity srcFixture destFixture false cliInputCancel
      [] "A" [] (by decide) (by simp) (by decide)).2.2.2

/-! ## Batch writer trace lemmas -/

theorem bulkCount_append (l1 l2 : List Ev) :
    bulkCount (l1 ++ l2) = bulkCount l1 + bulkCount l2 := by
  simp [bulkCount, List.filter_append]

theorem batchWaits_append (l1 l2 : List Ev) :
    batchWaits (l1 ++ l2) = batchWaits l1 ++ batchWaits l2 := by
  simp [batchWaits, List.filterMap_append]

theorem bulkCount_bulkTries (a c : Nat) : bulkCount (bulkTries a c) = c + 1 := by
  induction c generalizing a with
  | zero => rfl
  | succ c ih =>
    show bulkCount (Ev.bulkTry a :: Ev.batchWait (backoffDelay a) :: bulkTries (a + 1) c)
      = c + 1 + 1
    simp only [bulkCount, List.filter_cons]
    simp only [bulkCount] at ih
    simp [ih (a + 1)]

theorem batchWaits_bulkTries (a c : Nat) :
    batchWaits (bulkTries a c) = (List.range' a c).map backoffDelay := by
  induction c generalizing a with
  | zero => rfl
  | succ c ih =>
    show batchWaits (Ev.bulkTry a :: Ev.batchWait (backoffDelay a) :: bulkTries (a + 1) c)
      = (List.range' a (c + 1)).map backoffDelay
    simp only [batchWaits, List.filterMap_cons]
    simp only [batchWaits] at ih
    simp [ih (a + 1), List.range'_succ]

/-! Unfolding equations of the three write loops, one per control path. -/

theorem insertOneLoop_eq_success (env : Env) (doc attempt fuel : Nat)
    (h : attempt ≤ MAX_RETRIES) (hs : env.single doc attempt = none) :
    insertOneLoop env doc attempt (fuel + 1) = ([Ev.singleTry doc attempt], none) := by
  unfold insertOneLoop
  rw [if_pos h, hs]

theorem insertOneLoop_eq_stop (env : Env) (doc attempt fuel : Nat) (e : MErr)
    (h : attempt ≤ MAX_RETRIES) (hs : env.single doc attempt = some e)
    (hc : (!isNetworkError e || decide (attempt ≥ MAX_RETRIES)) = true) :
    insertOneLoop env doc attempt (fuel + 1) = ([Ev.singleTry doc attempt], some e) := by
  unfold insertOneLoop
  rw [if_pos h, hs]
  simp only [hc, if_true]

theorem insertOneLoop_eq_retry (env : Env) (doc attempt fuel : Nat) (e : MErr)
    (h : attempt ≤ MAX_RETRIES) (hs : env.single doc attempt = some e)
    (hc : (!isNetworkError e || decide (attempt ≥ MAX_RETRIES)) = false) :
    insertOneLoop env doc attempt (fuel + 1) =
      (Ev.singleTry doc attempt :: Ev.docWait (backoffDelay attempt) ::
         (insertOneLoop env doc (attempt + 1) fuel).1,
       (insertOneLoop env doc (attempt + 1) fuel).2) := by
  simp only [insertOneLoop]
  rw [if_pos h, hs]
  simp only [hc, Bool.false_eq_true, if_false]

theorem insertIndividually_eq_err (env : Env) (d : Nat) (ds : List Nat) (e : MErr)
    (hr : (insertOneLoop env d 1 MAX_RETRIES).2 = some e) :
    insertIndividually env (d :: ds) = ((insertOneLoop env d 1 MAX_RETRIES).1, some e) := by
  unfold insertIndividually
  simp only [hr]

theorem insertIndividually_eq_ok (env : Env) (d : Nat) (ds : List Nat)
    (hr : (insertOneLoop env d 1 MAX_RETRIES).2 = none) :
    insertIndividually env (d :: ds) =
      ((insertOneLoop env d 1 MAX_RETRIES).1 ++ (insertIndividually env ds).1,
       (insertIndividually env ds).2) := by
  simp only [insertIndividually]
  rw [hr]

theorem insertBatch_eq_success (env : Env) (docs : List Nat) (a fuel : Nat)
    (hb : env.bulk a = none) :
    insertBatch env docs a (fuel + 1) = ([Ev.bulkTry a], none) := by
  unfold insertBatch
  rw [hb]

theorem insertBatch_eq_stop (env : Env) (docs : List Nat) (a fuel : Nat) (e : MErr)
    (hb : env.bulk a = some e)
    (hc : (!isNetworkError e || decide (a ≥ MAX_RETRIES)) = true) :
    insertBatch env docs a (fuel + 1) =
      (Ev.bulkTry a :: (insertIndividually env docs).1,
       (insertIndividually env docs).2) := by
  unfold insertBatch
  rw [hb]
  simp only [hc, if_true]

theorem insertBatch_eq_retry (env : Env) (docs : List Nat) (a fuel : Nat) (e : MErr)
    (hb : env.bulk a = some e)
    (hc : (!isNetworkError e || decide (a ≥ MAX_RETRIES)) = false) :
    insertBatch env docs a (fuel + 1) =
      (Ev.bulkTry a :: Ev.batchWait (backoffDelay a) ::
         (insertBatch env docs (a + 1) fuel).1,
       (insertBatch env docs (a + 1) fuel).2) := by
  simp only [insertBatch]
  rw [hb]
  simp only [hc, Bool.false_eq_true, if_false]

theorem insertOneLoop_no_batch_events (env : Env) (doc : Nat) :
    ∀ fuel attempt,
      bulkCount (insertOneLoop env doc attempt fuel).1 = 0 ∧
      batchWaits (insertOneLoop env doc attempt fuel).1 = [] := by
  intro fuel
  induction fuel with
  | zero => intro attempt; exact ⟨rfl, rfl⟩
  | succ fuel ih =>
    intro attempt
    by_cases h : attempt ≤ MAX_RETRIES
    · cases hs : env.single doc attempt with
      | none => rw [insertOneLoop_eq_success env doc attempt fuel h hs]; exact ⟨rfl, rfl⟩
      | some e =>
        cases hc : (!isNetworkError e || decide (attempt ≥ MAX_RETRIES)) with
        | true => rw [insertOneLoop_eq_stop env doc attempt fuel e h hs hc]; exact ⟨rfl, rfl⟩
        | false =>
          rw [insertOneLoop_eq_retry env doc attempt fuel e h hs hc]
          obtain ⟨h1, h2⟩ := ih (attempt + 1)
          refine ⟨?_, ?_⟩
          · simpa [bulkCount, List.filter_cons] using h1
          · simpa [batchWaits, List.filterMap_cons] using h2
    · have : insertOneLoop env doc attempt (fuel + 1) = ([], none) := by
        unfold insertOneLoop
        rw [if_neg h]
      rw [this]
      exact ⟨rfl, rfl⟩

theorem insertIndividually_no_batch_events (env : Env) :
    ∀ docs : List Nat,
      bulkCount (insertIndividually env docs).1 = 0 ∧
      batchWaits (insertIndividually env docs).1 = [] := by
  intro docs
  induction docs with
  | nil => exact ⟨rfl, rfl⟩
  | cons d ds ih =>
    obtain ⟨h1, h2⟩ := insertOneLoop_no_batch_events env d MAX_RETRIES 1
    cases hr : (insertOneLoop env d 1 MAX_RETRIES).2 with
    | some e => rw [insertIndividually_eq_err env d ds e hr]; exact ⟨h1, h2⟩
    | none =>
      rw [insertIndividually_eq_ok env d ds hr]
      obtain ⟨h3, h4⟩ := ih
      refine ⟨?_, ?_⟩
      · rw [bulkCount_append, h1, h3]
      · rw [batchWaits_append, h2, h4]; rfl

/-- The retry ladder of `insertBatch`, characterized: starting from attempt
`a` with enough fuel, there is a stopping attempt `j` at most the retry
ceiling such that every earlier attempt failed with a network error, and the
run either succeeds at `j` having retried with backoff at each failure, or
stops at `j` (non-network error, or ceiling reached) and runs the
per-document fallback, whose outcome it returns. -/
theorem insertBatch_ladder (env : Env) (docs : List Nat) :
    ∀ fuel a, 1 ≤ a → a ≤ MAX_RETRIES → MAX_RETRIES + 1 ≤ a + fuel →
    ∃ j, a ≤ j ∧ j ≤ MAX_RETRIES ∧ allNetworkBefore env a j ∧
      ((env.bulk j = none ∧
          insertBatch env docs a fuel = (bulkTries a (j - a), none)) ∨
       (∃ e, env.bulk j = some e ∧
          (isNetworkError e = false ∨ j = MAX_RETRIES) ∧
          insertBatch env docs a fuel =
            (bulkTries a (j - a) ++ (insertIndividually env docs).1,
             (insertIndividually env docs).2))) := by
  intro fuel
  induction fuel with
  | zero => intro a h1 h7 hf; omega
  | succ fuel ih =>
    intro a h1 h7 hf
    have hvac : allNetworkBefore env a a := fun k hk1 hk2 =>
      absurd (Nat.lt_of_le_of_lt hk1 hk2) (Nat.lt_irrefl a)
    cases hb : env.bulk a with
    | none =>
      refine ⟨a, le_refl a, h7, hvac, Or.inl ⟨hb, ?_⟩⟩
      rw [insertBatch_eq_success env docs a fuel hb]
      simp [bulkTries, Nat.sub_self]
    | some e =>
      cases hc : (!isNetworkError e || decide (a ≥ MAX_RETRIES)) with
      | true =>
        have hstop : isNetworkError e = false ∨ a = MAX_RETRIES := by
          rcases Bool.or_eq_true_iff.mp hc with h | h
          · exact Or.inl (by simpa using h)
          · have h2 := of_decide_eq_true h
            exact Or.inr (by omega)
        refine ⟨a, le_refl a, h7, hvac, Or.inr ⟨e, hb, hstop, ?_⟩⟩
        rw [insertBatch_eq_stop env docs a fuel e hb hc]
        simp [bulkTries, Nat.sub_self]
      | false =>
        obtain ⟨ha1, ha2⟩ := Bool.or_eq_false_iff.mp hc
        have hnet : isNetworkError e = true := by simpa using ha1
        have hlt : a < MAX_RETRIES := by
          have h2 := of_decide_eq_false ha2
          omega
        obtain ⟨j, hj1, hj7, hjall, hjcase⟩ := ih (a + 1) (by omega) (by omega) (by omega)
        have hall : allNetworkBefore env a j := by
          intro k hk1 hk2
          rcases Nat.eq_or_lt_of_le hk1 with hek | hgt
          · exact ⟨e, by rw [← hek]; exact hb, hnet⟩
          · exact hjall k hgt hk2
        have hsub : j - a = (j - (a + 1)) + 1 := by omega
        have hunf := insertBatch_eq_retry env docs a fuel e hb hc
        rcases hjcase with ⟨hbj, heq⟩ | ⟨e2, hbj, hst, heq⟩
        · refine ⟨j, by omega, hj7, hall, Or.inl ⟨hbj, ?_⟩⟩
          rw [hunf, heq, hsub]
          simp [bulkTries]
        · refine ⟨j, by omega, hj7, hall, Or.inr ⟨e2, hbj, hst, ?_⟩⟩
          rw [hunf, heq, hsub]
          simp [bulkTries]

/-- The stopping attempt of the retry ladder is unique: two attempts at most
the ceiling, each preceded only by network errors and each satisfying the
stop condition, coincide. -/
theorem ladder_stop_unique (env : Env) (j j' : Nat)
    (h1 : 1 ≤ j) (h7 : j ≤ MAX_RETRIES)
    (hall : allNetworkBefore env 1 j) (hstop : stopsAt env j)
    (h1' : 1 ≤ j') (h7' : j' ≤ MAX_RETRIES)
    (hall' : allNetworkBefore env 1 j') (hstop' : stopsAt env j') :
    j = j' := by
  rcases Nat.lt_trichotomy j j' with hlt | heq | hgt
  · obtain ⟨e, he, hnet⟩ := hall' j h1 hlt
    rcases hstop with hn | ⟨e2, he2, hc⟩
    · rw [hn] at he; cases he
    · rw [he2] at he
      injection he with hee
      rcases hc with hcf | hj7
      · rw [hee, hnet] at hcf; cases hcf
      · omega
  · exact heq
  · obtain ⟨e, he, hnet⟩ := hall j' h1' hgt
    rcases hstop' with hn | ⟨e2, he2, hc⟩
    · rw [hn] at he; cases he
    · rw [he2] at he
      injection he with hee
      rcases hc with hcf | hj7
      · rw [hee, hnet] at hcf; cases hcf
      · omega

/-- Characterization of a full batch write: its stopping attempt `j`, its
bulk-attempt count, its batch-level waits, and its two possible shapes. -/
theorem insertBatchRun_characterization (env : Env) (docs : List Nat) :
    ∃ j, 1 ≤ j ∧ j ≤ MAX_RETRIES ∧ allNetworkBefore env 1 j ∧ stopsAt env j ∧
      bulkCount (insertBatchRun env docs).1 = j ∧
      batchWaits (insertBatchRun env docs).1 =
        (List.range' 1 (j - 1)).map backoffDelay ∧
      ((env.bulk j = none ∧
          insertBatchRun env docs = (bulkTries 1 (j - 1), none)) ∨
       (∃ e, env.bulk j = some e ∧
          (isNetworkError e = false ∨ j = MAX_RETRIES) ∧
          insertBatchRun env docs =
            (bulkTries 1 (j - 1) ++ (insertIndividually env docs).1,
             (insertIndividually env docs).2))) := by
  obtain ⟨j, hj1, hj7, hall, hcase⟩ :=
    insertBatch_ladder env docs MAX_RETRIES 1 (le_refl 1) (by decide) (by omega)
  have hstop : stopsAt env j := by
    rcases hcase with ⟨hb, _⟩ | ⟨e, hb, hst, _⟩
    · exact Or.inl hb
    · exact Or.inr ⟨e, hb, hst⟩
  refine ⟨j, hj1, hj7, hall, hstop, ?_, ?_, hcase⟩
  · rcases hcase with ⟨_, heq⟩ | ⟨e, _, _, heq⟩
    · show bulkCount (insertBatch env docs 1 MAX_RETRIES).1 = j
      rw [heq, bulkCount_bulkTries]
      omega
    · show bulkCount (insertBatch env docs 1 MAX_RETRIES).1 = j
      rw [heq]
      show bulkCount (bulkTries 1 (j - 1) ++ (insertIndividually env docs).1) = j
      rw [bulkCount_append, bulkCount_bulkTries,
        (insertIndividually_no_batch_events env docs).1]
      omega
  · rcases hcase with ⟨_, heq⟩ | ⟨e, _, _, heq⟩
    · show batchWaits (insertBatch env docs 1 MAX_RETRIES).1 = _
      rw [heq]
      exact batchWaits_bulkTries 1 (j - 1)
    · show batchWaits (insertBatch env docs 1 MAX_RETRIES).1 = _
      rw [heq]
      show batchWaits (bulkTries 1 (j - 1) ++ (insertIndividually env docs).1) = _
      rw [batchWaits_append, batchWaits_bulkTries,
        (insertIndividually_no_batch_events env docs).2, List.append_nil]

/-- C2: with the first `j - 1` bulk attempts failing on network-classified
errors, a success at attempt `j ≤ MAX_RETRIES` means the whole batch was
retried with backoff at each failure and no fallback ran; an error at
attempt `j` that is non-network, or hits the retry ceiling `j = MAX_RETRIES`,
makes the run fall back to inserting the documents one at a time, and the
outcome of that per-document fallback — including an error surviving it —
is the outcome of the batch write. -/
theorem insertBatch_retry_policy (env : Env) (docs : List Nat) (j : Nat)
    (h1 : 1 ≤ j) (h7 : j ≤ MAX_RETRIES) (hall : allNetworkBefore env 1 j) :
    (env.bulk j = none →
       insertBatchRun env docs = (bulkTries 1 (j - 1), none)) ∧
    (∀ e, env.bulk j = some e →
       isNetworkError e = false ∨ j = MAX_RETRIES →
       insertBatchRun env docs =
         (bulkTries 1 (j - 1) ++ (insertIndividually env docs).1,
          (insertIndividually env docs).2)) := by
  obtain ⟨j', hj1', hj7', hall', hstop', _, _, hcase'⟩ :=
    insertBatchRun_characterization env docs
  constructor
  · intro hb
    have hjj : j = j' := ladder_stop_unique env j j' h1 h7 hall (Or.inl hb)
      hj1' hj7' hall' hstop'
    subst hjj
    rcases hcase' with ⟨_, heq⟩ | ⟨e, hb', _, _⟩
    · exact heq
    · rw [hb] at hb'; cases hb'
  · intro e hb hst
    have hjj : j = j' := ladder_stop_unique env j j' h1 h7 hall
      (Or.inr ⟨e, hb, hst⟩) hj1' hj7' hall' hstop'
    subst hjj
    rcases hcase' with ⟨hb', _⟩ | ⟨e2, hb2, hst2, heq⟩
    · rw [hb] at hb'; cases hb'
    · exact heq

/-- Witness for C2: one network failure, then success — the batch is retried
once after a backoff wait and never falls back. -/
theorem insertBatch_retry_policy_witness :
    1 ≤ 2 ∧ 2 ≤ MAX_RETRIES ∧ allNetworkBefore envNetOnce 1 2 ∧
    envNetOnce.bulk 2 = none ∧
    insertBatchRun envNetOnce [0] = (bulkTries 1 1, none) := by
  have hall : allNetworkBefore envNetOnce 1 2 := by
    intro k hk1 hk2
    have hk : k = 1 := by omega
    subst hk
    exact ⟨netErr, rfl, by decide⟩
  exact ⟨by decide, by decide, hall, rfl,
    (insertBatch_retry_policy envNetOnce [0] 2 (by decide) (by decide) hall).1 rfl⟩

/-- C3: the backoff delay before the `k`-th batch retry is
`min(20000, 500 * k^2)` milliseconds; the successive batch-level delays of
any one batch write are exactly these values for attempts `1, ..., t - 1`
(where `t` is the number of bulk attempts), hence non-decreasing and capped
at 20000 ms; and when every fault is transient the retry sequence stops
either on a successful insert or on reaching the attempt ceiling 7. -/
theorem backoff_monotone_capped (env : Env) (docs : List Nat) (k m : Nat)
    (hkm : k ≤ m) :
    backoffDelay k = min 20000 (500 * k * k) ∧
    backoffDelay k ≤ backoffDelay m ∧
    backoffDelay m ≤ 20000 ∧
    batchWaits (insertBatchRun env docs).1 =
      (List.range' 1 (bulkCount (insertBatchRun env docs).1 - 1)).map backoffDelay ∧
    1 ≤ bulkCount (insertBatchRun env docs).1 ∧
    bulkCount (insertBatchRun env docs).1 ≤ MAX_RETRIES ∧
    ((∀ a e, env.bulk a = some e → isNetworkError e = true) →
       env.bulk (bulkCount (insertBatchRun env docs).1) = none ∨
       bulkCount (insertBatchRun env docs).1 = MAX_RETRIES) := by
  obtain ⟨j, hj1, hj7, hall, hstop, hcount, hwaits, _⟩ :=
    insertBatchRun_characterization env docs
  refine ⟨rfl, ?_, ?_, ?_, ?_, ?_, ?_⟩
  · exact min_le_min (le_refl 20000)
      (Nat.mul_le_mul (Nat.mul_le_mul (le_refl 500) hkm) hkm)
  · exact min_le_left 20000 (500 * m * m)
  · rw [hwaits, hcount]
  · omega
  · omega
  · intro htrans
    rcases hstop with hn | ⟨e, hb, hcf | hj⟩
    · rw [hcount]; exact Or.inl hn
    · rw [htrans j e hb] at hcf; cases hcf
    · rw [hcount]; exact Or.inr hj

/-- Witness for C3 at the one-retry environment and delays of attempts 2
and 3. -/
theorem backoff_monotone_capped_witness :
    2 ≤ 3 ∧
    backoffDelay 2 = min 20000 (500 * 2 * 2) ∧
    backoffDelay 2 ≤ backoffDelay 3 ∧
    backoffDelay 3 ≤ 20000 ∧
    batchWaits (insertBatchRun envNetOnce [0]).1 =
      (List.range' 1 (bulkCount (insertBatchRun envNetOnce [0]).1 - 1)).map
        backoffDelay ∧
    1 ≤ bulkCount (insertBatchRun envNetOnce [0]).1 ∧
    bulkCount (insertBatchRun envNetOnce [0]).1 ≤ MAX_RETRIES := by
  have h := backoff_monotone_capped envNetOnce [0] 2 3 (by decide)
  exact ⟨by decide, h.1, h.2.1, h.2.2.1, h.2.2.2.1, h.2.2.2.2.1, h.2.2.2.2.2.1⟩

/-- C10: `insertBatch` is insensitive to any fuel of at least `MAX_RETRIES`
— the recursion always stops within `MAX_RETRIES` bulk attempts — and every
run consists of at most `MAX_RETRIES` bulk attempts followed by at most one
per-document fallback pass. -/
theorem insertBatch_terminates (env : Env) (docs : List Nat) (fuel : Nat)
    (hfuel : MAX_RETRIES ≤ fuel) :
    insertBatch env docs 1 fuel = insertBatchRun env docs ∧
    bulkCount (insertBatchRun env docs).1 ≤ MAX_RETRIES ∧
    ∃ j, 1 ≤ j ∧ j ≤ MAX_RETRIES ∧
      (insertBatchRun env docs = (bulkTries 1 (j - 1), none) ∨
       insertBatchRun env docs =
         (bulkTries 1 (j - 1) ++ (insertIndividually env docs).1,
          (insertIndividually env docs).2)) := by
  obtain ⟨j, hj1, hj7, hall, hcase⟩ :=
    insertBatch_ladder env docs fuel 1 (le_refl 1) (by decide) (by omega)
  obtain ⟨j', hj1', hj7', hall', hstop', hcount', _, hcase'⟩ :=
    insertBatchRun_characterization env docs
  have hstop : stopsAt env j := by
    rcases hcase with ⟨hb, _⟩ | ⟨e, hb, hst, _⟩
    · exact Or.inl hb
    · exact Or.inr ⟨e, hb, hst⟩
  have hjj : j = j' := ladder_stop_unique env j j' hj1 hj7 hall hstop
    hj1' hj7' hall' hstop'
  subst hjj
  refine ⟨?_, by omega, j, hj1, hj7, ?_⟩
  · rcases hcase with ⟨hb, heq⟩ | ⟨e, hb, hst, heq⟩ <;>
      rcases hcase' with ⟨hb', heq'⟩ | ⟨e', hb', hst', heq'⟩
    · rw [heq, heq']
    · rw [hb] at hb'; cases hb'
    · rw [hb'] at hb; cases hb
    · rw [heq, heq']
  · rcases hcase' with ⟨_, heq'⟩ | ⟨e', _, _, heq'⟩
    · exact Or.inl heq'
    · exact Or.inr heq'

/-- Witness for C10 at fuel 9 on the one-retry environment. -/
theorem insertBatch_terminates_witness :
    MAX_RETRIES ≤ 9 ∧
    insertBatch envNetOnce [0] 1 9 = insertBatchRun envNetOnce [0] ∧
    bulkCount (insertBatchRun envNetOnce [0]).1 ≤ MAX_RETRIES := by
  have h := insertBatch_terminates envNetOnce [0] 9 (by decide)
  exact ⟨by decide, h.1, h.2.1⟩

/-- Directed characterization of the per-document retry loop: with network
errors before attempt `j` and a stopping error at `j`, the loop performs
attempts `a, ..., j` with the backoff wait between them and rethrows the
error of attempt `j`. -/
theorem insertOneLoop_run (env : Env) (doc : Nat) :
    ∀ fuel a j, 1 ≤ a → a ≤ j → j ≤ MAX_RETRIES → MAX_RETRIES + 1 ≤ a + fuel →
    (∀ k, a ≤ k → k < j → ∃ e, env.single doc k = some e ∧ isNetworkError e = true) →
    ∀ e, env.single doc j = some e →
    isNetworkError e = false ∨ j = MAX_RETRIES →
    insertOneLoop env doc a fuel = (singleTries doc a (j - a), some e) := by
  intro fuel
  induction fuel with
  | zero => intro a j h1 haj hj7 hf hall e hs hst; omega
  | succ fuel ih =>
    intro a j h1 haj hj7 hf hall e hs hst
    rcases Nat.eq_or_lt_of_le haj with heq | hlt
    · subst heq
      have hcond : (!isNetworkError e || decide (a ≥ MAX_RETRIES)) = true := by
        rcases hst with hcf | hj
        · simp [hcf]
        · simp [hj]
      rw [insertOneLoop_eq_stop env doc a fuel e hj7 hs hcond]
      simp [singleTries, Nat.sub_self]
    · obtain ⟨e1, hs1, hnet1⟩ := hall a (le_refl a) hlt
      have hguard : a ≤ MAX_RETRIES := by omega
      have hcond : (!isNetworkError e1 || decide (a ≥ MAX_RETRIES)) = false := by
        simp only [hnet1, Bool.not_true, Bool.false_or, decide_eq_false_iff_not]
        omega
      rw [insertOneLoop_eq_retry env doc a fuel e1 hguard hs1 hcond]
      have hrest := ih (a + 1) j (by omega) hlt hj7 (by omega)
        (fun k hk1 hk2 => hall k (by omega) hk2) e hs hst
      rw [hrest]
      have hsub : j - a = (j - (a + 1)) + 1 := by omega
      rw [hsub]
      simp [singleTries]

/-- C6: a non-network fault at any bulk attempt is never retried at the
batch level — the faulting attempt is the run's last bulk attempt, and the
run goes directly to per-document handling and returns its outcome — and in
the per-document loop each document is retried under the same bounded
backoff policy, its error surfacing as fatal only once the error is
non-network or the attempt ceiling is reached. -/
theorem nonnetwork_fault_fallback (env : Env) (docs : List Nat) :
    (∀ j e, 1 ≤ j → j ≤ MAX_RETRIES → allNetworkBefore env 1 j →
       env.bulk j = some e → isNetworkError e = false →
       insertBatchRun env docs =
         (bulkTries 1 (j - 1) ++ (insertIndividually env docs).1,
          (insertIndividually env docs).2) ∧
       bulkCount (insertBatchRun env docs).1 = j) ∧
    (∀ doc j, 1 ≤ j → j ≤ MAX_RETRIES →
       (∀ k, 1 ≤ k → k < j →
          ∃ e, env.single doc k = some e ∧ isNetworkError e = true) →
       ∀ e, env.single doc j = some e →
       isNetworkError e = false ∨ j = MAX_RETRIES →
       insertOneLoop env doc 1 MAX_RETRIES =
         (singleTries doc 1 (j - 1), some e)) := by
  constructor
  · intro j e h1 hj7 hall hb hnet
    obtain ⟨j', hj1', hj7', hall', hstop', hcount', _, hcase'⟩ :=
      insertBatchRun_characterization env docs
    have hjj : j = j' := ladder_stop_unique env j j' h1 hj7 hall
      (Or.inr ⟨e, hb, Or.inl hnet⟩) hj1' hj7' hall' hstop'
    subst hjj
    rcases hcase' with ⟨hb', _⟩ | ⟨e2, hb2, hst2, heq⟩
    · rw [hb] at hb'; cases hb'
    · exact ⟨heq, hcount'⟩
  · intro doc j h1 hj7 hall e hs hst
    exact insertOneLoop_run env doc MAX_RETRIES 1 j (le_refl 1) h1 hj7
      (by omega) hall e hs hst

/-- Witness for C6: a non-network bulk failure falls straight through to the
per-document pass, and document 0's loop stops on its second, non-network
error. -/
theorem nonnetwork_fault_fallback_witness :
    envFallback.bulk 1 = some valErr ∧
    isNetworkError valErr = false ∧
    envFallback.single 0 2 = some valErr ∧
    insertBatchRun envFallback [0] =
      (bulkTries 1 0 ++ (insertIndividually envFallback [0]).1,
       (insertIndividually envFallback [0]).2) ∧
    bulkCount (insertBatchRun envFallback [0]).1 = 1 ∧
    insertOneLoop envFallback 0 1 MAX_RETRIES =
      (singleTries 0 1 1, some valErr) := by
  have hall : ∀ k, 1 ≤ k → k < 2 →
      ∃ e, envFallback.single 0 k = some e ∧ isNetworkError e = true := by
    intro k hk1 hk2
    have hk : k = 1 := by omega
    subst hk
    exact ⟨netErr, rfl, by decide⟩
  have hvac : allNetworkBefore envFallback 1 1 := by
    intro k hk1 hk2
    omega
  refine ⟨rfl, by decide, rfl, ?_, ?_, ?_⟩
  · exact ((nonnetwork_fault_fallback envFallback [0]).1 1 valErr (by decide)
      (by decide) hvac rfl (by decide)).1
  · exact ((nonnetwork_fault_fallback envFallback [0]).1 1 valErr (by decide)
      (by decide) hvac rfl (by decide)).2
  · exact (nonnetwork_fault_fallback envFallback [0]).2 0 2 (by decide) (by decide)
      hall valErr rfl (Or.inl (by decide))

/-! ## Paginated reader lemmas -/

theorem clonePages_eq_nil (coll : List Nat) (ps : Nat) (last : Option Nat)
    (fuel : Nat) (h : findPage coll last ps = []) :
    clonePages coll ps last (fuel + 1) = [] := by
  simp only [clonePages]
  rw [if_pos h]

theorem clonePages_eq_cons (coll : List Nat) (ps : Nat) (last : Option Nat)
    (fuel : Nat) (h : ¬ findPage coll last ps = []) :
    clonePages coll ps last (fuel + 1) =
      findPage coll last ps ::
        clonePages coll ps (nextLast (findPage coll last ps) last) fuel := by
  simp only [clonePages]
  rw [if_neg h]

/-- Sorting commutes with the page filter. -/
theorem sortById_filter (p : Nat → Bool) (l : List Nat) :
    sortById (l.filter p) = (sortById l).filter p := by
  have s1 : List.Sorted (· ≤ ·) (sortById (l.filter p)) :=
    List.sorted_insertionSort _ _
  have s2 : List.Sorted (· ≤ ·) ((sortById l).filter p) :=
    List.Pairwise.filter p (List.sorted_insertionSort _ l)
  have hperm : List.Perm (sortById (l.filter p)) ((sortById l).filter p) :=
    (List.perm_insertionSort _ _).trans
      (((List.perm_insertionSort _ l).symm).filter p)
  exact List.eq_of_perm_of_sorted hperm s1 s2

/-- On a collection with pairwise distinct keys the sort is strictly
ascending. -/
theorem sortById_sorted_lt (l : List Nat) (hnd : l.Nodup) :
    List.Sorted (· < ·) (sortById l) := by
  have hle : (sortById l).Pairwise (· ≤ ·) := List.sorted_insertionSort _ l
  have hnd2 : (sortById l).Nodup := ((List.perm_insertionSort _ l).symm).nodup hnd
  exact (hle.and hnd2).imp (fun h => lt_of_le_of_ne h.1 h.2)

/-- In a strictly ascending list the last element is the maximum. -/
theorem sorted_lt_le_getLast (p : List Nat) (hp : List.Sorted (· < ·) p)
    (y : Nat) (hy : p.getLast? = some y) : ∀ x ∈ p, x ≤ y := by
  induction p with
  | nil => intro x hx; cases hx
  | cons a q ih =>
    cases q with
    | nil =>
      intro x hx
      rw [List.mem_singleton] at hx
      subst hx
      have hxy : x = y := by simpa using hy
      omega
    | cons b r =>
      rw [List.getLast?_cons_cons] at hy
      intro x hx
      rcases List.mem_cons.mp hx with hxa | hxq
      · subst hxa
        have hmem : y ∈ b :: r := List.mem_of_mem_getLast? hy
        have ha := List.rel_of_sorted_cons hp y hmem
        omega
      · exact ih hp.of_cons hy x hxq

/-- Advancing the cursor to the last key of a page turns the filter into
"drop the page": the keys strictly greater than the page's last key are
exactly the remainder after the page. -/
theorem filter_after_getLast (S : List Nat) (hS : List.Sorted (· < ·) S)
    (last : Option Nat) (n : Nat) (y : Nat)
    (hy : ((S.filter (afterKey last)).take n).getLast? = some y) :
    S.filter (afterKey (some y)) = (S.filter (afterKey last)).drop n := by
  set R := S.filter (afterKey last) with hR
  have hRs : List.Sorted (· < ·) R := hS.sublist (List.filter_sublist S)
  have hyR : y ∈ R.take n := List.mem_of_mem_getLast? hy
  have hyR2 : y ∈ R := List.mem_of_mem_take hyR
  have hyAfter : afterKey last y = true := List.of_mem_filter (hR ▸ hyR2)
  have hA : S.filter (afterKey (some y)) = R.filter (afterKey (some y)) := by
    rw [hR, List.filter_filter]
    refine List.filter_congr ?_
    intro a _
    cases hcy : afterKey (some y) a
    · simp
    · have hya : y < a := by simpa [afterKey] using hcy
      have hla : afterKey last a = true := by
        cases last with
        | none => rfl
        | some l =>
          have hly : l < y := by simpa [afterKey] using hyAfter
          simp only [afterKey, decide_eq_true_eq]
          omega
      simp [hla]
  have h1 : (R.take n).filter (afterKey (some y)) = [] := by
    refine List.filter_eq_nil_iff.mpr ?_
    intro a ha
    have hts : List.Sorted (· < ·) (R.take n) := hRs.sublist (List.take_sublist n R)
    have hle := sorted_lt_le_getLast (R.take n) hts y hy a ha
    simp only [afterKey, decide_eq_true_eq]
    omega
  have hcross : ∀ a ∈ R.take n, ∀ b ∈ R.drop n, a < b := by
    have hp := hRs
    rw [← List.take_append_drop n R] at hp
    exact (List.pairwise_append.mp hp).2.2
  have h2 : (R.drop n).filter (afterKey (some y)) = R.drop n := by
    refine List.filter_eq_self.mpr ?_
    intro a ha
    have hlt := hcross y hyR a ha
    simp only [afterKey, decide_eq_true_eq]
    omega
  rw [hA]
  conv_lhs => rw [← List.take_append_drop n R]
  rw [List.filter_append, h1, h2, List.nil_append]

/-- Invariant of the pagination loop: with the remainder of the sorted
collection after the last-seen key shorter than the fuel, the loop's pages
concatenate exactly to that remainder, each page fits the page size, and
each page passes the key filter of its predecessor's last key. -/
theorem clonePages_spec (coll : List Nat) (ps : Nat) (hps : 0 < ps)
    (hnd : coll.Nodup) :
    ∀ fuel last, ((sortById coll).filter (afterKey last)).length < fuel →
      (clonePages coll ps last fuel).flatten =
        (sortById coll).filter (afterKey last) ∧
      (∀ p ∈ clonePages coll ps last fuel, p.length ≤ ps) ∧
      chainOk last (clonePages coll ps last fuel) = true := by
  intro fuel
  induction fuel with
  | zero => intro last h; omega
  | succ fuel ih =>
    intro last hlen
    set R := (sortById coll).filter (afterKey last) with hR
    have hpage : findPage coll last ps = R.take ps := by
      rw [findPage, sortById_filter, hR]
    cases hRe : R with
    | nil =>
      have hp : findPage coll last ps = [] := by
        rw [hpage, hRe, List.take_nil]
      rw [clonePages_eq_nil coll ps last fuel hp]
      refine ⟨rfl, ?_, rfl⟩
      intro p hp2
      cases hp2
    | cons r R0 =>
      have hne : ¬ findPage coll last ps = [] := by
        rw [hpage, hRe]
        intro habs
        rw [List.take_eq_nil_iff] at habs
        rcases habs with h0 | h0
        · omega
        · cases h0
      rw [clonePages_eq_cons coll ps last fuel hne]
      obtain ⟨y, hy⟩ : ∃ y, (findPage coll last ps).getLast? = some y := by
        cases hgl : (findPage coll last ps).getLast? with
        | none => exact absurd (List.getLast?_eq_none_iff.mp hgl) hne
        | some y => exact ⟨y, rfl⟩
      have hnext : nextLast (findPage coll last ps) last = some y := by
        rw [nextLast, hy]
      have hy' : ((( sortById coll).filter (afterKey last)).take ps).getLast? = some y := by
        rw [← hR, ← hpage]
        exact hy
      have hstep : (sortById coll).filter (afterKey (some y)) = R.drop ps := by
        rw [filter_after_getLast (sortById coll) (sortById_sorted_lt coll hnd)
          last ps y hy', hR]
      have hR1 : 1 ≤ R.length := by rw [hRe]; simp
      have hbound : ((sortById coll).filter (afterKey (some y))).length < fuel := by
        rw [hstep, List.length_drop]
        omega
      obtain ⟨hflat, hlens, hchain⟩ := ih (some y) hbound
      refine ⟨?_, ?_, ?_⟩
      · rw [List.flatten_cons, hnext, hflat, hstep, hpage,
          List.take_append_drop]
        exact hRe
      · intro p hp2
        rcases List.mem_cons.mp hp2 with hph | hpt
        · subst hph
          rw [hpage, List.length_take]
          exact min_le_left ps R.length
        · rw [hnext] at hpt
          exact hlens p hpt
      · have hall : (findPage coll last ps).all (afterKey last) = true := by
          rw [List.all_eq_true]
          intro x hx
          rw [hpage] at hx
          have hx2 : x ∈ R := List.mem_of_mem_take hx
          rw [hR] at hx2
          exact List.of_mem_filter hx2
        simp only [chainOk, hall, hnext, hchain, Bool.and_self]

/-- C1: over a collection whose documents all carry pairwise distinct,
totally ordered `_id` keys, one run of the pagination loop of
`cloneCollection` observes each document exactly once (the concatenation of
its pages is a permutation of the collection) and in strictly ascending
`_id` order, in pages of at most the page size, where each page contains
only keys passing the strictly-greater filter of the previous page's last
key (initially no key). -/
theorem cloneCollection_pagination (coll : List Nat) (ps : Nat)
    (hnd : coll.Nodup) (hps : 0 < ps) :
    (clonePages coll ps none (coll.length + 1)).flatten.Perm coll ∧
    List.Sorted (· < ·) (clonePages coll ps none (coll.length + 1)).flatten ∧
    (∀ p ∈ clonePages coll ps none (coll.length + 1), p.length ≤ ps) ∧
    chainOk none (clonePages coll ps none (coll.length + 1)) = true := by
  have hfil : (sortById coll).filter (afterKey none) = sortById coll := by
    refine List.filter_eq_self.mpr ?_
    intro a _
    rfl
  have hslen : (sortById coll).length = coll.length :=
    (List.perm_insertionSort _ coll).length_eq
  have hlen : ((sortById coll).filter (afterKey none)).length < coll.length + 1 := by
    rw [hfil]
    omega
  obtain ⟨hflat, hlens, hchain⟩ :=
    clonePages_spec coll ps hps hnd (coll.length + 1) none hlen
  rw [hfil] at hflat
  refine ⟨?_, ?_, hlens, hchain⟩
  · rw [hflat]
    exact List.perm_insertionSort _ coll
  · rw [hflat]
    exact sortById_sorted_lt coll hnd

/-- Witness for C1: four distinct keys, page size 2 — pages `[0,1]`,
`[2,5]`. -/
theorem cloneCollection_pagination_witness :
    ([2, 0, 5, 1] : List Nat).Nodup ∧ 0 < 2 ∧
    ((clonePages [2, 0, 5, 1] 2 none 5).flatten.Perm [2, 0, 5, 1] ∧
     List.Sorted (· < ·) (clonePages [2, 0, 5, 1] 2 none 5).flatten ∧
     (∀ p ∈ clonePages [2, 0, 5, 1] 2 none 5, p.length ≤ 2) ∧
     chainOk none (clonePages [2, 0, 5, 1] 2 none 5) = true) :=
  ⟨by decide, by decide,
   cloneCollection_pagination [2, 0, 5, 1] 2 (by decide) (by decide)⟩

/-! ## Copy orchestrator lemmas -/

theorem mem_of_mem_ite_nil_left {α : Type} {C : Prop} [Decidable C]
    {l : List α} {e : α} (h : e ∈ (if C then ([] : List α) else l)) : e ∈ l := by
  split at h
  · cases h
  · exact h

theorem mem_of_mem_ite_nil_right {α : Type} {C : Prop} [Decidable C]
    {l : List α} {e : α} (h : e ∈ (if C then l else ([] : List α))) : e ∈ l := by
  split at h
  · exact h
  · cases h

/-- Every effect the collection-clone step emits names that collection. -/
theorem cloneOneCollection_effect_shape (db : String) (skipIdx so : Bool)
    (destNames : List String) (c : SrcCollection) :
    ∀ e ∈ (cloneOneCollection db skipIdx so destNames c).2,
      e = DbEffect.dropCollection db c.name ∨
      e = DbEffect.createCollection db c.name ∨
      (∃ i, e = DbEffect.insertDoc db c.name i) ∨
      (∃ i, e = DbEffect.createIndex db c.name i) := by
  intro e he
  simp only [cloneOneCollection] at he
  split at he
  · cases he
  · simp only [List.mem_append] at he
    rcases he with ((h1 | h2) | h3) | h4
    · rw [dropEffects] at h1
      exact Or.inl (List.mem_singleton.mp (mem_of_mem_ite_nil_right h1))
    · rw [createEffects] at h2
      exact Or.inr (Or.inl (List.mem_singleton.mp (mem_of_mem_ite_nil_left h2)))
    · rw [copyEffects, List.mem_map] at h3
      obtain ⟨i, _, hi⟩ := h3
      exact Or.inr (Or.inr (Or.inl ⟨i, hi.symm⟩))
    · rw [idxEffects] at h4
      have h4b := mem_of_mem_ite_nil_left h4
      rw [List.mem_map] at h4b
      obtain ⟨i, _, hi⟩ := h4b
      exact Or.inr (Or.inr (Or.inr ⟨i, hi.symm⟩))

/-- Another collection's name survives the drop and create steps. -/
theorem mem_afterCreateSet (destNames : List String) (c : SrcCollection)
    (coll : String) (hc : ¬ c.name = coll) (hmem : coll ∈ destNames) :
    coll ∈ afterCreateSet destNames c := by
  have hne : (coll == c.name) = false :=
    beq_eq_false_iff_ne.mpr (fun h => hc h.symm)
  have had : coll ∈ afterDropSet destNames c := by
    rw [afterDropSet]
    split
    · rw [List.mem_filter]
      exact ⟨hmem, by simp [hne]⟩
    · exact hmem
  rw [afterCreateSet]
  split
  · exact had
  · exact List.mem_cons_of_mem _ had

/-- The collection-clone step never removes another name from the
destination-name set. -/
theorem cloneOneCollection_mem_fst (db : String) (skipIdx so : Bool)
    (destNames : List String) (c : SrcCollection) (coll : String)
    (hc : ¬ c.name = coll) (hmem : coll ∈ destNames) :
    coll ∈ (cloneOneCollection db skipIdx so destNames c).1 := by
  simp only [cloneOneCollection]
  split
  · exact hmem
  · exact mem_afterCreateSet destNames c coll hc hmem

/-- With no overwrite decision, a collection already present at the
destination is skipped: no effect of the collection loop drops it, creates
it, writes a document into it or creates an index on it. -/
theorem processCollections_untouched (db coll : String) (skipIdx : Bool)
    (cs : List SrcCollection) :
    ∀ destNames, coll ∈ destNames →
      ∀ e ∈ processCollections db skipIdx false destNames cs,
        touchesCollection db coll e = false := by
  induction cs with
  | nil => intro destNames _ e he; cases he
  | cons c rest ih =>
    intro destNames hmem e he
    simp only [processCollections] at he
    split at he
    · exact ih destNames hmem e he
    · rw [List.mem_append] at he
      by_cases hcc : c.name = coll
      · have hcontains : destNames.contains c.name = true := by
          rw [hcc]
          simpa using hmem
        have hcond : (!(false : Bool) && destNames.contains c.name) = true := by
          rw [Bool.not_false, Bool.true_and]
          exact hcontains
        have hskip : cloneOneCollection db skipIdx false destNames c =
            (destNames, []) := by
          rw [cloneOneCollection, if_pos hcond]
        rcases he with h1 | h2
        · rw [hskip] at h1
          cases h1
        · rw [hskip] at h2
          exact ih destNames hmem e h2
      · rcases he with h1 | h2
        · have hff : (c.name == coll) = false := beq_eq_false_iff_ne.mpr hcc
          rcases cloneOneCollection_effect_shape db skipIdx false destNames c e h1
            with h | h | ⟨i, h⟩ | ⟨i, h⟩ <;> subst h <;>
            simp [touchesCollection, hff]
        · exact ih _ (cloneOneCollection_mem_fst db skipIdx false destNames c coll
            hcc hmem) e h2

/-- Every effect of the collection loop belongs to its database. -/
theorem processCollections_dbOf (db : String) (skipIdx so : Bool) :
    ∀ cs destNames, ∀ e ∈ processCollections db skipIdx so destNames cs,
      dbOf e = db := by
  intro cs
  induction cs with
  | nil => intro destNames e he; cases he
  | cons c rest ih =>
    intro destNames e he
    simp only [processCollections] at he
    split at he
    · exact ih destNames e he
    · rw [List.mem_append] at he
      rcases he with h1 | h2
      · rcases cloneOneCollection_effect_shape db skipIdx so destNames c e h1
          with h | h | ⟨i, h⟩ | ⟨i, h⟩ <;> subst h <;> rfl
      · exact ih _ e h2

/-- Every effect of one database's clone belongs to that database. -/
theorem cloneOneDatabase_dbOf (src : SourceModel) (dest : DestModel)
    (ow : List String) (skipIdx : Bool) (db' : String) :
    ∀ e ∈ cloneOneDatabase src dest ow skipIdx db', dbOf e = db' := by
  intro e he
  simp only [cloneOneDatabase] at he
  split at he
  · split at he
    · rw [List.mem_singleton] at he
      subst he
      rfl
    · cases he
  · rw [List.mem_append] at he
    rcases he with h1 | h2
    · split at h1
      · rw [List.mem_singleton] at h1
        subst h1
        rfl
      · cases h1
    · exact processCollections_dbOf db' skipIdx _ (src.colls db') _ e h2

/-- A database without an overwrite decision leaves each of its
destination-resident collections untouched, and other databases' clones
never touch it either. -/
theorem cloneOneDatabase_untouched (src : SourceModel) (dest : DestModel)
    (ow : List String) (skipIdx : Bool) (db coll db' : String)
    (hover : db ∉ ow) (hdest : coll ∈ dest.colls db) :
    ∀ e ∈ cloneOneDatabase src dest ow skipIdx db',
      touchesCollection db coll e = false := by
  intro e he
  by_cases hdb : db' = db
  · subst hdb
    have hso : (ow.contains db') = false := by
      simpa using hover
    simp only [cloneOneDatabase, hso, Bool.false_eq_true, if_false] at he
    split at he
    · cases he
    · rw [List.nil_append] at he
      exact processCollections_untouched db' coll skipIdx (src.colls db')
        (dest.colls db') hdest e he
  · have hdbne : (db' == db) = false := beq_eq_false_iff_ne.mpr hdb
    have hdbOf := cloneOneDatabase_dbOf src dest ow skipIdx db' e he
    cases e with
    | dropDatabase d =>
      simp only [dbOf] at hdbOf
      subst hdbOf
      simp [touchesCollection, hdbne]
    | dropCollection d c =>
      simp only [dbOf] at hdbOf
      subst hdbOf
      simp [touchesCollection, hdbne]
    | createCollection d c =>
      simp only [dbOf] at hdbOf
      subst hdbOf
      simp [touchesCollection, hdbne]
    | insertDoc d c i =>
      simp only [dbOf] at hdbOf
      subst hdbOf
      simp [touchesCollection, hdbne]
    | createIndex d c i =>
      simp only [dbOf] at hdbOf
      subst hdbOf
      simp [touchesCollection, hdbne]

/-- C7: for a collection that already exists at the destination in a
database with no overwrite decision, the whole run performs no database
drop, no collection drop, no collection creation, no document insert and no
index creation against that destination collection — its contents and index
set are untouched. -/
theorem skip_correctness (src : SourceModel) (dest : DestModel)
    (args : CloneArgs) (db coll : String) (hover : db ∉ args.overwrite)
    (hdest : coll ∈ dest.colls db) :
    ∀ e ∈ cloneDatabases src dest args, touchesCollection db coll e = false := by
  intro e he
  simp only [cloneDatabases] at he
  rw [List.mem_flatten] at he
  obtain ⟨l, hl, hel⟩ := he
  rw [List.mem_map] at hl
  obtain ⟨db', _, hdb'⟩ := hl
  subst hdb'
  exact cloneOneDatabase_untouched src dest args.overwrite args.skipIndexes
    db coll db' hover hdest e hel

/-- Witness for C7: database `app` has no overwrite decision and collection
`users` already exists at the destination. -/
theorem skip_correctness_witness :
    "app" ∉ argsFixture.overwrite ∧
    "users" ∈ destFixture.colls "app" ∧
    (∀ e ∈ cloneDatabases srcFixture destFixture argsFixture,
       touchesCollection "app" "users" e = false) := by
  refine ⟨by decide, by decide, ?_⟩
  exact skip_correctness srcFixture destFixture argsFixture "app" "users"
    (by decide) (by decide)

end MongoCloner
